import Mathlib

/-!
Verification of the ad-matrix allelic-depth matrix generator
(src/ad-matrix.c, src/ad-matrix.h) against its natural-language
specification.

The merge engine `build_matrix`, its manifest-loader allocation checks,
and its genotype splitter are embedded as executable Lean functions.
External collaborators are modelled from the spec: the chromosome
orderer `chromosome_name_cmp` (biostring) as a three-way compare induced
by a rank function on chromosome names, and the call reader
`vcf_read_ss_call` (vcfio) as a list of read results per stream.
Output bytes are modelled as `List Char`; a NULL `char *` handed to
`fprintf %s` is modelled as `Option.none` (glibc prints "(null)" there;
in C this is undefined behaviour).
-/

namespace ADMatrix

/-- A single variant call: chromosome name, 1-based position, and the raw
single-sample genotype payload. Embeds the fields of `vcf_call_t` that
`build_matrix` in src/ad-matrix.c reads via `VCF_CHROMOSOME`, `VCF_POS`
and `VCF_SINGLE_SAMPLE`. -/
structure Call where
  chrom : String
  pos : Nat
  sample : String
deriving DecidableEq

/-- One result of the external call reader `vcf_read_ss_call` (vcfio):
`ok c` is a successful read leaving `c` in the buffer (VCF_OK), `eof` is
end of input (VCF_READ_EOF), and `err b` is any other, failing status
(e.g. a malformed record), with `b` whatever the buffer holds after the
failed read. -/
inductive ReadEv where
  | ok (c : Call)
  | eof
  | err (b : Call)
deriving DecidableEq

/-- State of one sample stream inside `build_matrix`: whether its FILE
pointer `file_list->fp[c]` is still non-NULL, the pending call buffer
`vcf_call[c]` (kept, stale, after close), and the remaining results the
reader will produce for this stream. -/
structure StreamSt where
  isOpen : Bool
  pending : Call
  rest : List ReadEv
deriving DecidableEq

/-- One emitted matrix row: the chosen low chromosome and position, the
per-column participation pattern (`part c = true` when stream c took the
branch at src/ad-matrix.c line 228), and the exact cell strings written
to the reference sink and to the reference+alternate sink (the sentinel
branch writes "."). -/
structure Row where
  chrom : String
  pos : Nat
  part : List Bool
  refCells : List String
  refAltCells : List String
deriving DecidableEq

/-- Fatal outcomes of the embedded `build_matrix`: `dataErr` models
`exit(EX_DATAERR)` on a failed first read (line 193); `noOpenStream` and
`outOfFuel` are artefacts of the embedding that never occur in a
completed run. -/
inductive BuildErr where
  | dataErr
  | noOpenStream
  | outOfFuel
deriving DecidableEq

instance {ε α : Type} [DecidableEq ε] [DecidableEq α] : DecidableEq (Except ε α) := fun x y =>
  match x, y with
  | Except.ok a, Except.ok b =>
    match decEq a b with
    | isTrue h => isTrue (by rw [h])
    | isFalse h => isFalse (fun e => h (Except.ok.inj e))
  | Except.error a, Except.error b =>
    match decEq a b with
    | isTrue h => isTrue (by rw [h])
    | isFalse h => isFalse (fun e => h (Except.error.inj e))
  | Except.ok _, Except.error _ => isFalse (fun e => Except.noConfusion e)
  | Except.error _, Except.ok _ => isFalse (fun e => Except.noConfusion e)

/-- Modelled from the spec: `chromosome_name_cmp` (biostring) is the
external chromosome orderer, "a total order over chromosome identifiers
(e.g. 1 < 2 < ... < 22 < X < Y < MT) via a three-way compare". It is
modelled as the compare induced by a rank function from chromosome names
into Nat. -/
def chromosome_name_cmp (rank : String → Nat) (a b : String) : Int :=
  if rank a < rank b then -1 else if rank b < rank a then 1 else 0

/-- Split a character list at the first occurrence of `ch`, returning the
parts before and after it, or `none` when `ch` does not occur. This is
the search-and-cut step of one `strsep` call. -/
def splitFirstAux (ch : Char) : List Char → Option (List Char × List Char)
  | [] => none
  | c :: cs =>
    if c = ch then some ([], cs)
    else
      match splitFirstAux ch cs with
      | none => none
      | some (b, a) => some (c :: b, a)

/-- String version of `splitFirstAux`. -/
def splitFirst (ch : Char) (s : String) : Option (String × String) :=
  match splitFirstAux ch s.data with
  | none => none
  | some (b, a) => some (String.mk b, String.mk a)

/-- Embeds the genotype splitter of `build_matrix` (src/ad-matrix.c lines
231-243). The source runs, on the payload buffer, `strsep(&ref_count, ":")`
discarding the token (so `ref_count` ends up pointing after the first
colon), then `strsep(&alt_count, ",")` (NUL-terminating the ref count),
then `strsep(&ref_alt_count, ":")`, and prints `ref_count` and
`ref_alt_count` with `%s`. The first component is the string printed to
the reference sink, the second the string printed to the
reference+alternate sink; `none` models a NULL pointer (a delimiter that
was never found). -/
def splitSample (sample : String) : Option String × Option String :=
  match splitFirst ':' sample with
  | none => (none, none)
  | some (_, rest1) =>
    match splitFirst ',' rest1 with
    | none => (some rest1, none)
    | some (refTok, rest2) =>
      match splitFirst ':' rest2 with
      | none => (some refTok, none)
      | some (_, rest3) => (some refTok, some rest3)

/-- What `fprintf %s` prints for a possibly-NULL pointer: glibc prints
"(null)" for NULL (undefined behaviour in standard C). -/
def renderOpt : Option String → String
  | some s => s
  | none => "(null)"

/-- Stated from the spec's words (section 4.3 steps 1-2), for comparison
with the source splitter: take the substring before the first colon, and
within it the substring before the first comma; `none` when either
delimiter is absent (the spec calls for ParseError then). -/
def specRefDepth (payload : String) : Option String :=
  match splitFirst ':' payload with
  | none => none
  | some (a, _) =>
    match splitFirst ',' a with
    | none => none
    | some (r, _) => some r

/-- Stated from the spec's words (section 4.3 step 3), for comparison
with the source splitter: the substring between the first and the second
colon of the payload, emitted verbatim. -/
def specRefAltDepth (payload : String) : Option String :=
  match splitFirst ':' payload with
  | none => none
  | some (_, rest) =>
    match splitFirst ':' rest with
    | none => none
    | some (m, _) => some m

/-- Embeds the first-read loop of `build_matrix` (src/ad-matrix.c lines
172-195): one read per stream; any result other than VCF_OK — including
EOF on an empty input — prints a diagnostic and exits EX_DATAERR. -/
def initStreams : List (List ReadEv) → Except BuildErr (List StreamSt)
  | [] => Except.ok []
  | evs :: more =>
    match evs with
    | ReadEv.ok c :: r =>
      match initStreams more with
      | Except.ok ss => Except.ok (⟨true, c, r⟩ :: ss)
      | Except.error e => Except.error e
    | _ => Except.error BuildErr.dataErr

/-- Embeds the scan at src/ad-matrix.c lines 212-221: starting from the
first open stream's key as current low, examine each later stream; when
it is open and `chromosome_name_cmp` is negative, or zero with a smaller
position, it becomes the new low. -/
def scanLow (rank : String → Nat) (low : String × Nat) : List StreamSt → String × Nat
  | [] => low
  | s :: ss =>
    if s.isOpen = true ∧ (chromosome_name_cmp rank s.pending.chrom low.1 < 0 ∨
        (chromosome_name_cmp rank s.pending.chrom low.1 = 0 ∧ s.pending.pos < low.2)) then
      scanLow rank (s.pending.chrom, s.pending.pos) ss
    else
      scanLow rank low ss

/-- Embeds lines 206-221: skip closed streams, seed the low key from the
first open stream, then run `scanLow` on the remainder. Returns `none`
only when no stream is open (the source never reaches the scan then,
because the loop guard `open_count > 0` holds). -/
def findLow (rank : String → Nat) : List StreamSt → Option (String × Nat)
  | [] => none
  | s :: ss =>
    if s.isOpen = true then some (scanLow rank (s.pending.chrom, s.pending.pos) ss)
    else findLow rank ss

/-- Embeds the per-participant refill at src/ad-matrix.c lines 244-252:
read the next call; only a result equal to VCF_READ_EOF closes the
stream (fclose, fp := NULL, open_count decremented). Any other result —
VCF_OK or a failure — leaves the stream open with whatever the buffer
now holds. -/
def advance (s : StreamSt) : StreamSt :=
  match s.rest with
  | ReadEv.ok c :: r => ⟨true, c, r⟩
  | ReadEv.eof :: r => ⟨false, s.pending, r⟩
  | ReadEv.err b :: r => ⟨true, b, r⟩
  | [] => ⟨false, s.pending, []⟩

/-- Whether the refill of this participant returns VCF_READ_EOF, closing
the stream and decrementing `open_count`. -/
def closesNow (s : StreamSt) : Bool :=
  match s.rest with
  | ReadEv.eof :: _ => true
  | [] => true
  | _ => false

/-- Result of one pass of the cell-fill loop: updated streams, the
participation pattern, the cell strings written to each sink, and how
many streams were closed (the decrements of `open_count`). -/
structure RoundRes where
  streams : List StreamSt
  part : List Bool
  refCells : List String
  refAltCells : List String
  closed : Nat
deriving DecidableEq

/-- Embeds the cell-fill loop of `build_matrix` (src/ad-matrix.c lines
226-259). For each stream in manifest order: when the FILE pointer is
non-NULL and the pending call's POSITION equals `low_pos` (the source
compares only `VCF_POS`, not the chromosome), run the splitter, write
both cells, and refill; otherwise write the sentinel "." to both sinks. -/
def fillCells (lowPos : Nat) : List StreamSt → RoundRes
  | [] => ⟨[], [], [], [], 0⟩
  | s :: ss =>
    let r := fillCells lowPos ss
    if s.isOpen = true ∧ s.pending.pos = lowPos then
      ⟨advance s :: r.streams, true :: r.part,
        renderOpt (splitSample s.pending.sample).1 :: r.refCells,
        renderOpt (splitSample s.pending.sample).2 :: r.refAltCells,
        (if closesNow s then 1 else 0) + r.closed⟩
    else
      ⟨s :: r.streams, false :: r.part, "." :: r.refCells, "." :: r.refAltCells, r.closed⟩

/-- Embeds the main loop of `build_matrix` (src/ad-matrix.c lines
199-291): while `open_count > 0`, choose the low key, emit one row, and
refill the participants. `fuel` bounds the number of rounds; a run that
returns `Except.ok` completed exactly as the source's loop does. -/
def loop (rank : String → Nat) : Nat → List StreamSt → Nat → Except BuildErr (List Row)
  | 0, _, _ => Except.error BuildErr.outOfFuel
  | fuel + 1, streams, openCount =>
    if openCount = 0 then Except.ok []
    else
      match findLow rank streams with
      | none => Except.error BuildErr.noOpenStream
      | some low =>
        match loop rank fuel (fillCells low.2 streams).streams
            (openCount - (fillCells low.2 streams).closed) with
        | Except.ok rows =>
          Except.ok (⟨low.1, low.2, (fillCells low.2 streams).part,
            (fillCells low.2 streams).refCells,
            (fillCells low.2 streams).refAltCells⟩ :: rows)
        | Except.error e => Except.error e

/-- Embeds `build_matrix` (src/ad-matrix.c lines 120-295) on the merge
level: read the first call from every stream (any failure is fatal,
EX_DATAERR), then run the main loop with `open_count` starting at
`file_list->count`. -/
def build_matrix (rank : String → Nat) (fuel : Nat) (inputs : List (List ReadEv)) :
    Except BuildErr (List Row) :=
  match initStreams inputs with
  | Except.error e => Except.error e
  | Except.ok ss => loop rank fuel ss inputs.length

/-- The cell section of a rendered row: each cell followed by one tab,
mirroring `fprintf(fp, "%s\t", cell)` and `fprintf(fp, ".\t")`. -/
def cellsChars (cells : List String) : List Char :=
  (cells.map (fun c => c.data ++ ['\t'])).flatten

/-- The bytes one row contributes to the reference sink, mirroring the
write sequence at src/ad-matrix.c lines 224, 242/256 and 260:
`"%s\t%zu\t"` for chromosome and position, one `"%s\t"` or `".\t"` per
cell, then a newline. -/
def renderRefRow (r : Row) : List Char :=
  r.chrom.data ++ ['\t'] ++ (toString r.pos).data ++ ['\t'] ++ cellsChars r.refCells ++ ['\n']

/-- The bytes one row contributes to the reference+alternate sink,
mirroring the write sequence at src/ad-matrix.c lines 225, 243/257 and
261. -/
def renderRefAltRow (r : Row) : List Char :=
  r.chrom.data ++ ['\t'] ++ (toString r.pos).data ++ ['\t'] ++ cellsChars r.refAltCells ++ ['\n']

/-- The site key of a call: the `(chromosome, position)` pair. -/
def callKey (c : Call) : String × Nat := (c.chrom, c.pos)

/-- The site key of an emitted row. -/
def rowKey (r : Row) : String × Nat := (r.chrom, r.pos)

/-- The strict site-key order of spec section 3: chromosome rank first,
position second. -/
def keyLT (rank : String → Nat) (a b : String × Nat) : Prop :=
  rank a.1 < rank b.1 ∨ (rank a.1 = rank b.1 ∧ a.2 < b.2)

instance (rank : String → Nat) (a b : String × Nat) : Decidable (keyLT rank a b) :=
  inferInstanceAs (Decidable (rank a.1 < rank b.1 ∨ (rank a.1 = rank b.1 ∧ a.2 < b.2)))

/-- The non-strict (monotone, non-decreasing) site-key order of spec
section 3. -/
def keyLE (rank : String → Nat) (a b : String × Nat) : Prop :=
  ¬ keyLT rank b a

instance (rank : String → Nat) (a b : String × Nat) : Decidable (keyLE rank a b) :=
  inferInstanceAs (Decidable (¬ keyLT rank b a))

/-- An input stream that delivers a sequence of calls whose site keys are
strictly increasing, then EOF: the premise of the amended ordering
claim. -/
def StrictStream (rank : String → Nat) (evs : List ReadEv) : Prop :=
  ∃ cs : List Call, evs = cs.map ReadEv.ok ∧
    List.Chain' (fun a b => keyLT rank (callKey a) (callKey b)) cs

/-- Every open stream still has strictly increasing keys ahead of it:
its remaining reader results are plain successful calls forming, with
the pending call, a strictly increasing key chain. -/
def StrictTail (rank : String → Nat) (s : StreamSt) : Prop :=
  ∃ cs : List Call, s.rest = cs.map ReadEv.ok ∧
    List.Chain (fun a b => keyLT rank (callKey a) (callKey b)) s.pending cs

/-- The run-state invariant for the ordering theorem. -/
def InvAll (rank : String → Nat) (streams : List StreamSt) : Prop :=
  ∀ s ∈ streams, s.isOpen = true → StrictTail rank s

instance (rank : String → Nat) : IsTrans (String × Nat) (keyLT rank) :=
  ⟨by intro a b c h1 h2; unfold keyLT at *; omega⟩

/-- The row shape asserted by claim C8 for a matrix over n samples: each
sink receives exactly n cells, the row bytes are the chromosome, a tab,
the decimal position, a tab, each cell followed by a tab, and a final
newline — so a tab immediately precedes the newline. -/
def RowFormatOk (n : Nat) (r : Row) : Prop :=
  r.refCells.length = n ∧ r.refAltCells.length = n ∧
  renderRefRow r = r.chrom.data ++ ['\t'] ++ (toString r.pos).data ++ ['\t'] ++
    cellsChars r.refCells ++ ['\n'] ∧
  renderRefAltRow r = r.chrom.data ++ ['\t'] ++ (toString r.pos).data ++ ['\t'] ++
    cellsChars r.refAltCells ++ ['\n'] ∧
  (∃ t, renderRefRow r = t ++ ['\t', '\n']) ∧
  (∃ t, renderRefAltRow r = t ++ ['\t', '\n'])

/-- The row alignment asserted by the amended claim C9: both sinks start
the row with the same chromosome/position prefix, receive the same
number of cells, and every column whose stream did not participate holds
the sentinel "." in both sinks. -/
def RowAlignOk (r : Row) : Prop :=
  (∃ a, renderRefRow r = r.chrom.data ++ ['\t'] ++ (toString r.pos).data ++ ['\t'] ++ a) ∧
  (∃ b, renderRefAltRow r = r.chrom.data ++ ['\t'] ++ (toString r.pos).data ++ ['\t'] ++ b) ∧
  r.refCells.length = r.refAltCells.length ∧
  List.Forall₂ (fun p c => p = false → c = ".") r.part r.refCells ∧
  List.Forall₂ (fun p c => p = false → c = ".") r.part r.refAltCells

/-- A concrete chromosome rank for witnesses and counterexamples,
realising the order 1 < 2 < X of the spec's end-to-end scenarios. -/
def demoRank (s : String) : Nat :=
  if s = "1" then 1 else if s = "2" then 2 else if s = "X" then 3 else 0

/-- Exit code of `usage()` (src/ad-matrix.c line 304): sysexits.h
EX_USAGE = 64. -/
def usageExitCode : Nat := 64

/-- Exit code when the manifest itself cannot be opened (src/ad-matrix.c
line 61): sysexits.h EX_DATAERR = 65. -/
def manifestOpenExitCode : Nat := 65

/-- Exit code when an individual listed input cannot be opened
(src/ad-matrix.c line 103): sysexits.h EX_UNAVAILABLE = 69. -/
def inputOpenExitCode : Nat := 69

/-- Exit code when an output pipe cannot be spawned (src/ad-matrix.c
lines 152 and 160): sysexits.h EX_CANTCREAT = 73. -/
def outputPipeExitCode : Nat := 73

/-- Exit code of every allocation-failure branch (src/ad-matrix.c lines
67, 81, 87, 97, 143): sysexits.h EX_UNAVAILABLE = 69. -/
def allocFailExitCode : Nat := 69

/-- Exit code of the input parse/data error branch (src/ad-matrix.c line
193): sysexits.h EX_DATAERR = 65. -/
def parseErrorExitCode : Nat := 65

/-- Embeds the array-allocation section of `open_files` (src/ad-matrix.c
lines 77-88). `fileListNull` says whether the caller-supplied
`file_list` pointer is NULL; `fnArr` and `fpArr` are the results of the
two `malloc` calls (`none` = NULL). The source tests `file_list == NULL`
after each allocation — not the pointer the allocation returned — and
on that test exits EX_UNAVAILABLE; otherwise it continues into the
read loop with whatever the allocations produced. -/
def open_files_arrays (fileListNull : Bool) (fnArr fpArr : Option Unit) :
    Except Nat (Option Unit × Option Unit) :=
  if fileListNull = true then Except.error allocFailExitCode
  else if fileListNull = true then Except.error allocFailExitCode
  else Except.ok (fnArr, fpArr)

theorem splitFirstAux_of_not_mem {ch : Char} {l : List Char} (h : ch ∉ l) :
    splitFirstAux ch l = none := by
  induction l with
  | nil => rfl
  | cons c cs ih =>
    simp only [List.mem_cons, not_or] at h
    have hc : ¬ (c = ch) := fun e => h.1 e.symm
    simp [splitFirstAux, hc, ih h.2]

theorem splitFirstAux_append {ch : Char} {l1 l2 : List Char} (h : ch ∉ l1) :
    splitFirstAux ch (l1 ++ ch :: l2) = some (l1, l2) := by
  induction l1 with
  | nil => simp [splitFirstAux]
  | cons c cs ih =>
    simp only [List.mem_cons, not_or] at h
    have hc : ¬ (c = ch) := fun e => h.1 e.symm
    simp [splitFirstAux, hc, ih h.2]

theorem splitFirst_eq {ch : Char} {s pre post : String} (h : ch ∉ pre.data)
    (hs : s.data = pre.data ++ ch :: post.data) :
    splitFirst ch s = some (pre, post) := by
  unfold splitFirst
  rw [hs, splitFirstAux_append h]

/-- C1: evidence of the divergence. The cell-fill loop of `build_matrix`
(src/ad-matrix.c line 229) compares only `VCF_POS` with `low_pos`, never
the chromosome. With stream 0 holding the single call (1, 100) and
stream 1 holding the single call (2, 100), the round whose minimum key
is (1, 100) lets stream 1 participate as well: the one emitted row
carries both depth cells, stream 1's cell is not the sentinel although
its pending site key differs from the minimum in the chromosome, and the
site (2, 100) present in stream 1's input never receives a row of its
own. -/
theorem c1_position_only_participation :
    build_matrix demoRank 10
        [[ReadEv.ok ⟨"1", 100, "0/1:5,0:5"⟩], [ReadEv.ok ⟨"2", 100, "0/1:7,0:7"⟩]] =
      Except.ok [⟨"1", 100, [true, true], ["5", "7"], ["5", "7"]⟩] ∧
    ("2" : String) ≠ "1" := by
  exact ⟨by decide, by decide⟩

/-- C2 counterexample: for the spec's own payload example 3,2,1:X:6 the
claimed reference cell (the substring before the first comma within the
substring before the first colon) is 3, but the splitter embedded from
the source prints X:6 — `strsep` leaves `ref_count` pointing after the
first colon, and no comma occurs there. -/
theorem c2_counterexample :
    specRefDepth "3,2,1:X:6" = some "3" ∧
    (splitSample "3,2,1:X:6").1 = some "X:6" ∧
    (some "X:6" : Option String) ≠ some "3" := by
  exact ⟨by decide, by decide, by decide⟩

/-- C2 amended: the value written to the reference-depth sink is the
substring of the payload after the first colon and before the first
comma that follows it. For a payload pre:mid,post with no colon in pre
and no comma in mid, the reference cell is mid (so for GT:AD:DP-shaped
payloads such as 0/1:5,3:8 the cell is the leading AD entry 5). -/
theorem c2_ref_cell_after_first_colon (pre mid post : String)
    (h1 : ':' ∉ pre.data) (h2 : ',' ∉ mid.data) :
    (splitSample (pre ++ ":" ++ mid ++ "," ++ post)).1 = some mid := by
  have e1 : splitFirst ':' (pre ++ ":" ++ mid ++ "," ++ post)
      = some (pre, String.mk (mid.data ++ ',' :: post.data)) := by
    apply splitFirst_eq h1
    simp [String.data_append, List.append_assoc]
  have e2 : splitFirst ',' (String.mk (mid.data ++ ',' :: post.data)) = some (mid, post) := by
    apply splitFirst_eq h2
    rfl
  unfold splitSample
  cases h3 : splitFirst ':' post with
  | none => simp [e1, e2, h3]
  | some p =>
    obtain ⟨a, b⟩ := p
    simp [e1, e2, h3]

theorem c2_ref_cell_witness :
    (':' ∉ ("0/1" : String).data) ∧ (',' ∉ ("5" : String).data) ∧
    (splitSample ("0/1" ++ ":" ++ "5" ++ "," ++ "3:8")).1 = some "5" :=
  ⟨by decide, by decide, c2_ref_cell_after_first_colon "0/1" "5" "3:8" (by decide) (by decide)⟩

/-- C3 counterexample: for the payload 0/1:3,2:5 the claimed
reference+alternate cell (the substring between the first and second
colon, the comma-joined list 3,2) differs from what the embedded
splitter prints: `ref_alt_count` ends up pointing after the colon that
follows the first comma, so the source prints 5, the total-depth field,
not the comma list. -/
theorem c3_counterexample :
    specRefAltDepth "0/1:3,2:5" = some "3,2" ∧
    (splitSample "0/1:3,2:5").2 = some "5" ∧
    (some "5" : Option String) ≠ some "3,2" := by
  exact ⟨by decide, by decide, by decide⟩

/-- C3 amended: the value written to the reference+alternate-depth sink
is the remainder of the payload after the first colon that follows the
first comma after the first colon — for a GT:AD:DP...-shaped payload,
everything after the AD field's first entry separator's next colon
(e.g. the DP field onward), not the comma-joined AD list. -/
theorem c3_refalt_cell_after_second_colon (pre mid mid2 post : String)
    (h1 : ':' ∉ pre.data) (h2 : ',' ∉ mid.data) (h3 : ':' ∉ mid2.data) :
    (splitSample (pre ++ ":" ++ mid ++ "," ++ mid2 ++ ":" ++ post)).2 = some post := by
  have e1 : splitFirst ':' (pre ++ ":" ++ mid ++ "," ++ mid2 ++ ":" ++ post)
      = some (pre, String.mk (mid.data ++ ',' :: (mid2.data ++ ':' :: post.data))) := by
    apply splitFirst_eq h1
    simp [String.data_append, List.append_assoc]
  have e2 : splitFirst ',' (String.mk (mid.data ++ ',' :: (mid2.data ++ ':' :: post.data)))
      = some (mid, String.mk (mid2.data ++ ':' :: post.data)) := by
    apply splitFirst_eq h2
    rfl
  have e3 : splitFirst ':' (String.mk (mid2.data ++ ':' :: post.data)) = some (mid2, post) := by
    apply splitFirst_eq h3
    rfl
  unfold splitSample
  simp [e1, e2, e3]

theorem c3_refalt_cell_witness :
    (':' ∉ ("0/1" : String).data) ∧ (',' ∉ ("3" : String).data) ∧
    (':' ∉ ("2" : String).data) ∧
    (splitSample ("0/1" ++ ":" ++ "3" ++ "," ++ "2" ++ ":" ++ "5")).2 = some "5" :=
  ⟨by decide, by decide, by decide,
    c3_refalt_cell_after_second_colon "0/1" "3" "2" "5" (by decide) (by decide) (by decide)⟩

/-- C4 counterexample: a single input stream may repeat a site key while
remaining monotone (non-decreasing) in site key, and then the emitted
row keys repeat as well: the stream delivering (1, 100) twice yields two
rows both keyed (1, 100), which is not strictly increasing. -/
theorem c4_counterexample :
    keyLE demoRank (callKey ⟨"1", 100, "A:1,0:1"⟩) (callKey ⟨"1", 100, "A:1,0:1"⟩) ∧
    build_matrix demoRank 10
        [[ReadEv.ok ⟨"1", 100, "A:1,0:1"⟩, ReadEv.ok ⟨"1", 100, "A:1,0:1"⟩]] =
      Except.ok [⟨"1", 100, [true], ["1"], ["1"]⟩, ⟨"1", 100, [true], ["1"], ["1"]⟩] ∧
    ¬ keyLT demoRank ("1", 100) ("1", 100) := by
  exact ⟨by decide, by decide, by decide⟩

theorem initStreams_of_mem_nil {inputs : List (List ReadEv)} (h : [] ∈ inputs) :
    initStreams inputs = Except.error BuildErr.dataErr := by
  induction inputs with
  | nil => cases h
  | cons evs more ih =>
    cases evs with
    | nil => rfl
    | cons e es =>
      have hm : [] ∈ more := by
        rcases List.mem_cons.mp h with h0 | h0
        · cases h0
        · exact h0
      cases e with
      | ok c => simp [initStreams, ih hm]
      | eof => rfl
      | err b => rfl

/-- C5 counterexample: in the source under src/, EOF on a stream's very
first read is fatal, not tolerated: `build_matrix` exits EX_DATAERR at
line 193 whenever the first `vcf_read_ss_call` does not return VCF_OK,
so a single-sample manifest whose one input is empty produces an error
exit, not a completed zero-row run. -/
theorem c5_counterexample :
    build_matrix demoRank 3 [([] : List ReadEv)] = Except.error BuildErr.dataErr := by
  decide

/-- C5 amended: whenever any manifest entry's input is empty (its reader
returns EOF before any call is read), the run is fatal: `build_matrix`
diagnoses the failed first read and exits with the data-error code. No
stream is ever marked closed at origin. -/
theorem c5_first_read_eof_fatal (rank : String → Nat) (fuel : Nat)
    (inputs : List (List ReadEv)) (h : [] ∈ inputs) :
    build_matrix rank fuel inputs = Except.error BuildErr.dataErr := by
  unfold build_matrix
  rw [initStreams_of_mem_nil h]

theorem c5_first_read_eof_witness :
    ([] : List ReadEv) ∈ [([] : List ReadEv)] ∧
    build_matrix demoRank 3 [([] : List ReadEv)] = Except.error BuildErr.dataErr :=
  ⟨by simp, c5_first_read_eof_fatal demoRank 3 [([] : List ReadEv)] (by simp)⟩

/-- C6: evidence of the divergence. The refill at src/ad-matrix.c lines
244-252 tests only for VCF_READ_EOF; a failing (parse-error) status is
neither diagnosed nor fatal. With stream 0 delivering one good call at
(1, 100) and then a failed read that leaves garbage "Z" in the buffer,
the merge continues: the run completes normally with a second row keyed
by the stale position, whose cells are what printf prints for the NULL
pointers the splitter produced from the garbage payload. -/
theorem c6_parse_error_ignored :
    build_matrix demoRank 10
        [[ReadEv.ok ⟨"1", 100, "0/1:5,0:5"⟩, ReadEv.err ⟨"1", 100, "Z"⟩]] =
      Except.ok [⟨"1", 100, [true], ["5"], ["5"]⟩,
        ⟨"1", 100, [true], ["(null)"], ["(null)"]⟩] := by
  decide

/-- C7 counterexample: the six error kinds do not carry pairwise
distinct exit codes: manifest-open failure exits EX_DATAERR = 65 exactly
like an input parse/data error, and an individual input-open failure
exits EX_UNAVAILABLE = 69 exactly like an allocation failure. -/
theorem c7_counterexample :
    ¬ List.Pairwise (fun a b => a ≠ b)
      [usageExitCode, manifestOpenExitCode, inputOpenExitCode,
        outputPipeExitCode, allocFailExitCode, parseErrorExitCode] := by
  decide

/-- C7 amended: all six error exits are non-zero, and the four kinds
usage (64), manifest-open (65), input-open (69) and output-pipe (73)
are pairwise distinct, but manifest-open failure shares its code with
the input parse/data error and input-open failure shares its code with
allocation failure. -/
theorem c7_exit_codes :
    usageExitCode ≠ 0 ∧ manifestOpenExitCode ≠ 0 ∧ inputOpenExitCode ≠ 0 ∧
    outputPipeExitCode ≠ 0 ∧ allocFailExitCode ≠ 0 ∧ parseErrorExitCode ≠ 0 ∧
    manifestOpenExitCode = parseErrorExitCode ∧
    inputOpenExitCode = allocFailExitCode ∧
    List.Pairwise (fun a b => a ≠ b)
      [usageExitCode, manifestOpenExitCode, inputOpenExitCode, outputPipeExitCode] := by
  decide

/-- C9 counterexample: the byte-level sentinel pattern of the two sinks
can disagree. A single participating sample whose payload is G:.,5:7
yields the literal cell "." in the reference sink (the extracted
reference depth is the VCF missing marker) while the
reference+alternate sink receives "7" in the same column, so a column
can be "." in one sink and not in the other. -/
theorem c9_counterexample :
    build_matrix demoRank 10 [[ReadEv.ok ⟨"1", 100, "G:.,5:7"⟩]] =
      Except.ok [⟨"1", 100, [true], ["."], ["7"]⟩] ∧
    ("7" : String) ≠ "." := by
  exact ⟨by decide, by decide⟩

/-- C10: the allocation-failure branches guarding the filename and
stream arrays in `open_files` (src/ad-matrix.c lines 77-88) are
unreachable: they test the caller-supplied `file_list` pointer, which is
non-NULL, rather than the pointers `malloc` returned, so even when both
allocations fail (return NULL) the loader diagnoses nothing and
proceeds, null arrays in hand, to the loop that writes through them. -/
theorem c10_alloc_check_unreachable (fileListNull : Bool) (h : fileListNull = false)
    (fnArr fpArr : Option Unit) :
    open_files_arrays fileListNull fnArr fpArr = Except.ok (fnArr, fpArr) := by
  subst h
  rfl

theorem c10_alloc_check_witness :
    (false = false) ∧ open_files_arrays false none none = Except.ok (none, none) :=
  ⟨rfl, c10_alloc_check_unreachable false rfl none none⟩

theorem keyLT_trans {rank : String → Nat} {a b c : String × Nat}
    (h1 : keyLT rank a b) (h2 : keyLT rank b c) : keyLT rank a c := by
  unfold keyLT at *
  omega

theorem keyLT_irrefl (rank : String → Nat) (a : String × Nat) : ¬ keyLT rank a a := by
  unfold keyLT
  omega

theorem keyLT_nle_chain {rank : String → Nat} {ks low r : String × Nat}
    (h1 : keyLT rank ks low) (h2 : ¬ keyLT rank ks r) : ¬ keyLT rank low r := by
  unfold keyLT at *
  omega

theorem keyLT_ge_trans {rank : String → Nat} {a b c : String × Nat}
    (h1 : ¬ keyLT rank a b) (h2 : ¬ keyLT rank b c) : ¬ keyLT rank a c := by
  unfold keyLT at *
  omega

theorem keyLT_le_lt {rank : String → Nat} {a b c : String × Nat}
    (h1 : ¬ keyLT rank b a) (h2 : keyLT rank b c) : keyLT rank a c := by
  unfold keyLT at *
  omega

theorem keyLT_of_ne_pos {rank : String → Nat} {low k : String × Nat}
    (h1 : ¬ keyLT rank k low) (h2 : k.2 ≠ low.2) : keyLT rank low k := by
  unfold keyLT at *
  omega

theorem cmp_cond_iff (rank : String → Nat) (c : Call) (low : String × Nat) :
    (chromosome_name_cmp rank c.chrom low.1 < 0 ∨
      (chromosome_name_cmp rank c.chrom low.1 = 0 ∧ c.pos < low.2)) ↔
    keyLT rank (callKey c) low := by
  unfold chromosome_name_cmp keyLT callKey
  dsimp only
  split_ifs <;> omega

theorem scanLow_spec (rank : String → Nat) (ss : List StreamSt) :
    ∀ low : String × Nat,
      (scanLow rank low ss = low ∨
        ∃ s ∈ ss, s.isOpen = true ∧ callKey s.pending = scanLow rank low ss) ∧
      ¬ keyLT rank low (scanLow rank low ss) ∧
      (∀ s ∈ ss, s.isOpen = true → ¬ keyLT rank (callKey s.pending) (scanLow rank low ss)) := by
  induction ss with
  | nil =>
    intro low
    refine ⟨Or.inl rfl, ?_, ?_⟩
    · exact keyLT_irrefl rank low
    · intro s hs
      cases hs
  | cons s ss ih =>
    intro low
    have hrw : scanLow rank low (s :: ss) =
        if s.isOpen = true ∧ keyLT rank (callKey s.pending) low then
          scanLow rank (s.pending.chrom, s.pending.pos) ss
        else scanLow rank low ss := by
      simp only [scanLow, cmp_cond_iff]
    by_cases hc : s.isOpen = true ∧ keyLT rank (callKey s.pending) low
    · rw [hrw, if_pos hc]
      obtain ⟨ho, hlt⟩ := hc
      obtain ⟨hat, hle, hbd⟩ := ih (s.pending.chrom, s.pending.pos)
      have hkey : callKey s.pending = (s.pending.chrom, s.pending.pos) := rfl
      refine ⟨?_, ?_, ?_⟩
      · rcases hat with h0 | ⟨t, ht, hto, htk⟩
        · exact Or.inr ⟨s, List.mem_cons_self s ss, ho, by rw [hkey, h0]⟩
        · exact Or.inr ⟨t, List.mem_cons_of_mem s ht, hto, htk⟩
      · have h1 : ¬ keyLT rank (callKey s.pending)
            (scanLow rank (s.pending.chrom, s.pending.pos) ss) := by
          rw [hkey]
          exact hle
        exact keyLT_nle_chain hlt h1
      · intro t ht hto
        rcases List.mem_cons.mp ht with h0 | htm
        · subst h0
          rw [show callKey t.pending = (t.pending.chrom, t.pending.pos) from rfl]
          exact hle
        · exact hbd t htm hto
    · rw [hrw, if_neg hc]
      obtain ⟨hat, hle, hbd⟩ := ih low
      refine ⟨?_, hle, ?_⟩
      · rcases hat with h0 | ⟨t, ht, hto, htk⟩
        · exact Or.inl h0
        · exact Or.inr ⟨t, List.mem_cons_of_mem s ht, hto, htk⟩
      · intro t ht hto
        rcases List.mem_cons.mp ht with h0 | htm
        · subst h0
          have hnot : ¬ keyLT rank (callKey t.pending) low := fun hl => hc ⟨hto, hl⟩
          exact keyLT_ge_trans hnot hle
        · exact hbd t htm hto

theorem findLow_spec {rank : String → Nat} {streams : List StreamSt} {low : String × Nat}
    (h : findLow rank streams = some low) :
    (∃ s ∈ streams, s.isOpen = true ∧ callKey s.pending = low) ∧
    (∀ s ∈ streams, s.isOpen = true → ¬ keyLT rank (callKey s.pending) low) := by
  induction streams with
  | nil => cases h
  | cons s ss ih =>
    by_cases ho : s.isOpen = true
    · have hlow : low = scanLow rank (s.pending.chrom, s.pending.pos) ss := by
        rw [findLow, if_pos ho] at h
        exact (Option.some.inj h).symm
      obtain ⟨hat, hle, hbd⟩ := scanLow_spec rank ss (s.pending.chrom, s.pending.pos)
      subst hlow
      constructor
      · rcases hat with h0 | ⟨t, ht, hto, htk⟩
        · exact ⟨s, List.mem_cons_self s ss, ho, by rw [show callKey s.pending = (s.pending.chrom, s.pending.pos) from rfl, h0]⟩
        · exact ⟨t, List.mem_cons_of_mem s ht, hto, htk⟩
      · intro t ht hto
        rcases List.mem_cons.mp ht with h0 | htm
        · subst h0
          rw [show callKey t.pending = (t.pending.chrom, t.pending.pos) from rfl]
          exact hle
        · exact hbd t htm hto
    · rw [findLow, if_neg ho] at h
      obtain ⟨⟨t, ht, hto, htk⟩, hbd⟩ := ih h
      refine ⟨⟨t, List.mem_cons_of_mem s ht, hto, htk⟩, ?_⟩
      intro u hu huo
      rcases List.mem_cons.mp hu with h0 | hum
      · subst h0
        exact absurd huo ho
      · exact hbd u hum huo

theorem fillCells_strict {rank : String → Nat} {low : String × Nat} {streams : List StreamSt}
    (hInv : InvAll rank streams)
    (hLB : ∀ s ∈ streams, s.isOpen = true → ¬ keyLT rank (callKey s.pending) low) :
    InvAll rank (fillCells low.2 streams).streams ∧
    (∀ t ∈ (fillCells low.2 streams).streams, t.isOpen = true →
      keyLT rank low (callKey t.pending)) := by
  induction streams with
  | nil =>
    constructor
    · intro t ht
      simp [fillCells] at ht
    · intro t ht
      simp [fillCells] at ht
  | cons s ss ih =>
    have hInvTail : InvAll rank ss := fun t ht => hInv t (List.mem_cons_of_mem s ht)
    have hLBTail : ∀ t ∈ ss, t.isOpen = true → ¬ keyLT rank (callKey t.pending) low :=
      fun t ht => hLB t (List.mem_cons_of_mem s ht)
    obtain ⟨ihInv, ihBd⟩ := ih hInvTail hLBTail
    by_cases hc : s.isOpen = true ∧ s.pending.pos = low.2
    · have hhead : ∀ u, u = advance s → (u.isOpen = true → StrictTail rank u) ∧
          (u.isOpen = true → keyLT rank low (callKey u.pending)) := by
        intro u hu
        obtain ⟨cs, hrest, hchain⟩ := hInv s (List.mem_cons_self s ss) hc.1
        cases cs with
        | nil =>
          rw [List.map_nil] at hrest
          have hadv : u = ⟨false, s.pending, []⟩ := by
            rw [hu]
            unfold advance
            rw [hrest]
          rw [hadv]
          exact ⟨fun h => Bool.noConfusion h, fun h => Bool.noConfusion h⟩
        | cons c cs2 =>
          rw [List.map_cons] at hrest
          have hadv : u = ⟨true, c, cs2.map ReadEv.ok⟩ := by
            rw [hu]
            unfold advance
            rw [hrest]
          obtain ⟨hRc, hchain2⟩ := List.chain_cons.mp hchain
          constructor
          · intro _
            rw [hadv]
            exact ⟨cs2, rfl, hchain2⟩
          · intro _
            rw [hadv]
            exact keyLT_le_lt (hLB s (List.mem_cons_self s ss) hc.1) hRc
      constructor
      · intro t ht hto
        rw [show (fillCells low.2 (s :: ss)).streams =
            advance s :: (fillCells low.2 ss).streams by simp [fillCells, hc]] at ht
        rcases List.mem_cons.mp ht with h0 | htm
        · exact (hhead t h0).1 hto
        · exact ihInv t htm hto
      · intro t ht hto
        rw [show (fillCells low.2 (s :: ss)).streams =
            advance s :: (fillCells low.2 ss).streams by simp [fillCells, hc]] at ht
        rcases List.mem_cons.mp ht with h0 | htm
        · exact (hhead t h0).2 hto
        · exact ihBd t htm hto
    · constructor
      · intro t ht hto
        rw [show (fillCells low.2 (s :: ss)).streams =
            s :: (fillCells low.2 ss).streams by simp [fillCells, hc]] at ht
        rcases List.mem_cons.mp ht with h0 | htm
        · subst h0
          exact hInv t (List.mem_cons_self t ss) hto
        · exact ihInv t htm hto
      · intro t ht hto
        rw [show (fillCells low.2 (s :: ss)).streams =
            s :: (fillCells low.2 ss).streams by simp [fillCells, hc]] at ht
        rcases List.mem_cons.mp ht with h0 | htm
        · subst h0
          have hne : t.pending.pos ≠ low.2 := fun he => hc ⟨hto, he⟩
          exact keyLT_of_ne_pos (hLB t (List.mem_cons_self t ss) hto) hne
        · exact ihBd t htm hto

theorem loop_strict {rank : String → Nat} :
    ∀ fuel streams openCount rows, InvAll rank streams →
      loop rank fuel streams openCount = Except.ok rows →
      List.Chain' (keyLT rank) (rows.map rowKey) ∧
      (∀ k ∈ (rows.map rowKey).head?, ∃ s ∈ streams, s.isOpen = true ∧ callKey s.pending = k) := by
  intro fuel
  induction fuel with
  | zero =>
    intro streams oc rows _ h
    cases h
  | succ fuel ih =>
    intro streams oc rows hInv h
    by_cases hoc : oc = 0
    · rw [show loop rank (fuel + 1) streams oc = Except.ok [] by simp [loop, hoc]] at h
      have hrows : rows = [] := (Except.ok.inj h).symm
      subst hrows
      exact ⟨by simp, by simp⟩
    · rcases hfl : findLow rank streams with _ | low
      · rw [show loop rank (fuel + 1) streams oc = Except.error BuildErr.noOpenStream by
          simp [loop, hoc, hfl]] at h
        cases h
      · rcases hrec : loop rank fuel (fillCells low.2 streams).streams
            (oc - (fillCells low.2 streams).closed) with e | rows2
        · rw [show loop rank (fuel + 1) streams oc = Except.error e by
            simp [loop, hoc, hfl, hrec]] at h
          cases h
        · rw [show loop rank (fuel + 1) streams oc =
            Except.ok (⟨low.1, low.2, (fillCells low.2 streams).part,
              (fillCells low.2 streams).refCells,
              (fillCells low.2 streams).refAltCells⟩ :: rows2) by
            simp [loop, hoc, hfl, hrec]] at h
          have hrows : rows = ⟨low.1, low.2, (fillCells low.2 streams).part,
              (fillCells low.2 streams).refCells,
              (fillCells low.2 streams).refAltCells⟩ :: rows2 := (Except.ok.inj h).symm
          subst hrows
          obtain ⟨hat, hLB⟩ := findLow_spec hfl
          obtain ⟨hInv2, hbd2⟩ := fillCells_strict hInv hLB
          obtain ⟨hchain2, hhead2⟩ := ih (fillCells low.2 streams).streams
            (oc - (fillCells low.2 streams).closed) rows2 hInv2 hrec
          constructor
          · rw [List.map_cons]
            apply List.chain'_cons'.mpr
            refine ⟨?_, hchain2⟩
            intro y hy
            obtain ⟨t, htm, hto, htk⟩ := hhead2 y hy
            have := hbd2 t htm hto
            rw [htk] at this
            exact this
          · intro k hk
            rw [List.map_cons, List.head?_cons] at hk
            have hk2 : k = low := by
              have : rowKey ⟨low.1, low.2, (fillCells low.2 streams).part,
                  (fillCells low.2 streams).refCells,
                  (fillCells low.2 streams).refAltCells⟩ = low := rfl
              rw [this] at hk
              exact (Option.some.inj hk).symm
            subst hk2
            exact hat

theorem initStreams_inv {rank : String → Nat} :
    ∀ {inputs : List (List ReadEv)} {ss : List StreamSt},
      (∀ evs ∈ inputs, StrictStream rank evs) →
      initStreams inputs = Except.ok ss → InvAll rank ss := by
  intro inputs
  induction inputs with
  | nil =>
    intro ss _ h
    have hss : ss = [] := (Except.ok.inj h).symm
    subst hss
    intro s hs
    cases hs
  | cons evs more ih =>
    intro ss hstrict h
    obtain ⟨cs, hevs, hchain⟩ := hstrict evs (List.mem_cons_self evs more)
    cases cs with
    | nil =>
      subst hevs
      cases h
    | cons c cs2 =>
      subst hevs
      rw [List.map_cons] at h
      rcases hm : initStreams more with e | ss2
      · rw [show initStreams ((ReadEv.ok c :: cs2.map ReadEv.ok) :: more) = Except.error e by
          simp [initStreams, hm]] at h
        cases h
      · rw [show initStreams ((ReadEv.ok c :: cs2.map ReadEv.ok) :: more) =
          Except.ok (⟨true, c, cs2.map ReadEv.ok⟩ :: ss2) by simp [initStreams, hm]] at h
        have hss : ss = ⟨true, c, cs2.map ReadEv.ok⟩ :: ss2 := (Except.ok.inj h).symm
        subst hss
        intro s hs hso
        rcases List.mem_cons.mp hs with h0 | hsm
        · subst h0
          exact ⟨cs2, rfl, hchain⟩
        · exact ih (fun t ht => hstrict t (List.mem_cons_of_mem _ ht)) hm s hsm hso

theorem initStreams_length :
    ∀ {inputs : List (List ReadEv)} {ss : List StreamSt},
      initStreams inputs = Except.ok ss → ss.length = inputs.length := by
  intro inputs
  induction inputs with
  | nil =>
    intro ss h
    have hss : ss = [] := (Except.ok.inj h).symm
    subst hss
    rfl
  | cons evs more ih =>
    intro ss h
    cases evs with
    | nil => cases h
    | cons e es =>
      cases e with
      | ok c =>
        rcases hm : initStreams more with er | ss2
        · rw [show initStreams ((ReadEv.ok c :: es) :: more) = Except.error er by
            simp [initStreams, hm]] at h
          cases h
        · rw [show initStreams ((ReadEv.ok c :: es) :: more) =
            Except.ok (⟨true, c, es⟩ :: ss2) by simp [initStreams, hm]] at h
          have hss : ss = ⟨true, c, es⟩ :: ss2 := (Except.ok.inj h).symm
          subst hss
          simp [ih hm]
      | eof => cases h
      | err b => cases h

/-- C4 amended: for every run whose input streams each deliver a
sequence of calls with strictly increasing site keys, the emitted row
keys are pairwise strictly increasing under the (chromosome-rank,
position) order — in particular no site key appears in more than one
row and rows appear in genomic order. (The unamended premise, monotone
meaning non-decreasing, does not suffice: see the counterexample.) -/
theorem c4_strict_streams_strict_rows (rank : String → Nat) (fuel : Nat)
    (inputs : List (List ReadEv)) (rows : List Row)
    (hstrict : ∀ evs ∈ inputs, StrictStream rank evs)
    (hrun : build_matrix rank fuel inputs = Except.ok rows) :
    List.Pairwise (keyLT rank) (rows.map rowKey) := by
  unfold build_matrix at hrun
  rcases hi : initStreams inputs with e | ss
  · rw [hi] at hrun
    cases hrun
  · rw [hi] at hrun
    have hInv := initStreams_inv hstrict hi
    have hchain := (loop_strict fuel ss inputs.length rows hInv hrun).1
    exact List.chain'_iff_pairwise.mp hchain

theorem c4_strict_streams_witness :
    (∀ evs ∈ [[ReadEv.ok (⟨"1", 10, "0/1:4,0:4"⟩ : Call), ReadEv.ok ⟨"2", 5, "0/1:2,0:2"⟩]],
      StrictStream demoRank evs) ∧
    List.Pairwise (keyLT demoRank)
      (([⟨"1", 10, [true], ["4"], ["4"]⟩, ⟨"2", 5, [true], ["2"], ["2"]⟩] : List Row).map rowKey) := by
  have hstrict : ∀ evs ∈ [[ReadEv.ok (⟨"1", 10, "0/1:4,0:4"⟩ : Call),
      ReadEv.ok ⟨"2", 5, "0/1:2,0:2"⟩]], StrictStream demoRank evs := by
    intro evs h
    rcases List.mem_cons.mp h with h0 | h0
    · subst h0
      exact ⟨[⟨"1", 10, "0/1:4,0:4"⟩, ⟨"2", 5, "0/1:2,0:2"⟩], rfl,
        List.chain'_cons.mpr ⟨by decide, List.chain'_singleton _⟩⟩
    · cases h0
  exact ⟨hstrict, c4_strict_streams_strict_rows demoRank 10 _ _ hstrict (by decide)⟩

theorem fillCells_lengths (lowPos : Nat) (streams : List StreamSt) :
    (fillCells lowPos streams).streams.length = streams.length ∧
    (fillCells lowPos streams).part.length = streams.length ∧
    (fillCells lowPos streams).refCells.length = streams.length ∧
    (fillCells lowPos streams).refAltCells.length = streams.length := by
  induction streams with
  | nil => simp [fillCells]
  | cons s ss ih =>
    by_cases hc : s.isOpen = true ∧ s.pending.pos = lowPos <;>
      simp [fillCells, hc, ih.1, ih.2.1, ih.2.2.1, ih.2.2.2]

theorem fillCells_dot (lowPos : Nat) (streams : List StreamSt) :
    List.Forall₂ (fun p c => p = false → c = ".")
      (fillCells lowPos streams).part (fillCells lowPos streams).refCells ∧
    List.Forall₂ (fun p c => p = false → c = ".")
      (fillCells lowPos streams).part (fillCells lowPos streams).refAltCells := by
  induction streams with
  | nil => simp [fillCells]
  | cons s ss ih =>
    by_cases hc : s.isOpen = true ∧ s.pending.pos = lowPos
    · refine ⟨?_, ?_⟩ <;>
        · rw [show (fillCells lowPos (s :: ss)).part = true :: (fillCells lowPos ss).part by
              simp [fillCells, hc]]
          first
          | rw [show (fillCells lowPos (s :: ss)).refCells =
                renderOpt (splitSample s.pending.sample).1 :: (fillCells lowPos ss).refCells by
                simp [fillCells, hc]]
            exact List.Forall₂.cons (fun h => by cases h) ih.1
          | rw [show (fillCells lowPos (s :: ss)).refAltCells =
                renderOpt (splitSample s.pending.sample).2 :: (fillCells lowPos ss).refAltCells by
                simp [fillCells, hc]]
            exact List.Forall₂.cons (fun h => by cases h) ih.2
    · refine ⟨?_, ?_⟩ <;>
        · rw [show (fillCells lowPos (s :: ss)).part = false :: (fillCells lowPos ss).part by
              simp [fillCells, hc]]
          first
          | rw [show (fillCells lowPos (s :: ss)).refCells =
                "." :: (fillCells lowPos ss).refCells by simp [fillCells, hc]]
            exact List.Forall₂.cons (fun _ => rfl) ih.1
          | rw [show (fillCells lowPos (s :: ss)).refAltCells =
                "." :: (fillCells lowPos ss).refAltCells by simp [fillCells, hc]]
            exact List.Forall₂.cons (fun _ => rfl) ih.2

theorem loop_row_shape {rank : String → Nat} :
    ∀ fuel streams oc rows, loop rank fuel streams oc = Except.ok rows →
      ∀ r ∈ rows, r.part.length = streams.length ∧
        r.refCells.length = streams.length ∧ r.refAltCells.length = streams.length ∧
        List.Forall₂ (fun p c => p = false → c = ".") r.part r.refCells ∧
        List.Forall₂ (fun p c => p = false → c = ".") r.part r.refAltCells := by
  intro fuel
  induction fuel with
  | zero =>
    intro streams oc rows h
    cases h
  | succ fuel ih =>
    intro streams oc rows h r hr
    by_cases hoc : oc = 0
    · rw [show loop rank (fuel + 1) streams oc = Except.ok [] by simp [loop, hoc]] at h
      have hrows : rows = [] := (Except.ok.inj h).symm
      subst hrows
      cases hr
    · rcases hfl : findLow rank streams with _ | low
      · rw [show loop rank (fuel + 1) streams oc = Except.error BuildErr.noOpenStream by
          simp [loop, hoc, hfl]] at h
        cases h
      · rcases hrec : loop rank fuel (fillCells low.2 streams).streams
            (oc - (fillCells low.2 streams).closed) with e | rows2
        · rw [show loop rank (fuel + 1) streams oc = Except.error e by
            simp [loop, hoc, hfl, hrec]] at h
          cases h
        · rw [show loop rank (fuel + 1) streams oc =
            Except.ok (⟨low.1, low.2, (fillCells low.2 streams).part,
              (fillCells low.2 streams).refCells,
              (fillCells low.2 streams).refAltCells⟩ :: rows2) by
            simp [loop, hoc, hfl, hrec]] at h
          have hrows : rows = ⟨low.1, low.2, (fillCells low.2 streams).part,
              (fillCells low.2 streams).refCells,
              (fillCells low.2 streams).refAltCells⟩ :: rows2 := (Except.ok.inj h).symm
          subst hrows
          rcases List.mem_cons.mp hr with h0 | hmem
          · subst h0
            obtain ⟨l1, l2, l3, l4⟩ := fillCells_lengths low.2 streams
            obtain ⟨d1, d2⟩ := fillCells_dot low.2 streams
            exact ⟨l2, l3, l4, d1, d2⟩
          · have hrec2 := ih (fillCells low.2 streams).streams
              (oc - (fillCells low.2 streams).closed) rows2 hrec r hmem
            rw [(fillCells_lengths low.2 streams).1] at hrec2
            exact hrec2

theorem cellsChars_ends (cells : List String) :
    ∀ p : List Char, ∃ t, p ++ ['\t'] ++ cellsChars cells ++ ['\n'] = t ++ ['\t', '\n'] := by
  induction cells with
  | nil =>
    intro p
    exact ⟨p, by simp [cellsChars]⟩
  | cons c cs ih =>
    intro p
    obtain ⟨t, ht⟩ := ih (p ++ ['\t'] ++ c.data)
    refine ⟨t, ?_⟩
    rw [← ht]
    simp [cellsChars, List.append_assoc]

theorem renderRefRow_ends (r : Row) : ∃ t, renderRefRow r = t ++ ['\t', '\n'] := by
  obtain ⟨t, ht⟩ := cellsChars_ends r.refCells (r.chrom.data ++ ['\t'] ++ (toString r.pos).data)
  refine ⟨t, ?_⟩
  rw [← ht]
  simp [renderRefRow, List.append_assoc]

theorem renderRefAltRow_ends (r : Row) : ∃ t, renderRefAltRow r = t ++ ['\t', '\n'] := by
  obtain ⟨t, ht⟩ := cellsChars_ends r.refAltCells (r.chrom.data ++ ['\t'] ++ (toString r.pos).data)
  refine ⟨t, ?_⟩
  rw [← ht]
  simp [renderRefAltRow, List.append_assoc]

/-- C8: in every completed run over N manifest entries, every emitted
row satisfies, in each of the two sinks: the row bytes are the
chromosome field, a tab, the position field, a tab, then exactly N cells
each followed by a tab, and a single final newline — so a tab precedes
the newline — regardless of which streams are closed in that round. -/
theorem c8_row_format (rank : String → Nat) (fuel : Nat) (inputs : List (List ReadEv))
    (rows : List Row) (hrun : build_matrix rank fuel inputs = Except.ok rows) :
    ∀ r ∈ rows, RowFormatOk inputs.length r := by
  intro r hr
  unfold build_matrix at hrun
  rcases hi : initStreams inputs with e | ss
  · rw [hi] at hrun
    cases hrun
  · rw [hi] at hrun
    have hlen := initStreams_length hi
    have hshape := loop_row_shape fuel ss inputs.length rows hrun r hr
    refine ⟨?_, ?_, rfl, rfl, renderRefRow_ends r, renderRefAltRow_ends r⟩
    · rw [hshape.2.1, hlen]
    · rw [hshape.2.2.1, hlen]

theorem c8_row_format_witness :
    build_matrix demoRank 5 [[ReadEv.ok (⟨"1", 10, "0/1:4,1:5"⟩ : Call)]] =
      Except.ok [⟨"1", 10, [true], ["4"], ["5"]⟩] ∧
    RowFormatOk 1 (⟨"1", 10, [true], ["4"], ["5"]⟩ : Row) := by
  have hrun : build_matrix demoRank 5 [[ReadEv.ok (⟨"1", 10, "0/1:4,1:5"⟩ : Call)]] =
      Except.ok [⟨"1", 10, [true], ["4"], ["5"]⟩] := by decide
  exact ⟨hrun, c8_row_format demoRank 5 _ _ hrun _ (List.mem_singleton.mpr rfl)⟩

/-- C9 amended: in every completed run, each emitted row is row-aligned
across the two sinks: both start with the same chromosome/position
prefix, both receive the same number of cells, and every column whose
stream did not participate holds the sentinel "." in both sinks.
However, the byte-level pattern of "." cells can still differ between
the sinks, because a participating column's extracted depth string can
itself be the literal "." (see the counterexample). -/
theorem c9_row_alignment (rank : String → Nat) (fuel : Nat) (inputs : List (List ReadEv))
    (rows : List Row) (hrun : build_matrix rank fuel inputs = Except.ok rows) :
    ∀ r ∈ rows, RowAlignOk r := by
  intro r hr
  unfold build_matrix at hrun
  rcases hi : initStreams inputs with e | ss
  · rw [hi] at hrun
    cases hrun
  · rw [hi] at hrun
    have hshape := loop_row_shape fuel ss inputs.length rows hrun r hr
    refine ⟨⟨cellsChars r.refCells ++ ['\n'], ?_⟩,
      ⟨cellsChars r.refAltCells ++ ['\n'], ?_⟩, ?_, hshape.2.2.2.1, hshape.2.2.2.2⟩
    · simp [renderRefRow, List.append_assoc]
    · simp [renderRefAltRow, List.append_assoc]
    · rw [hshape.2.1, hshape.2.2.1]

theorem c9_row_alignment_witness :
    build_matrix demoRank 5 [[ReadEv.ok (⟨"2", 7, "0/0:6,0:6"⟩ : Call)]] =
      Except.ok [⟨"2", 7, [true], ["6"], ["6"]⟩] ∧
    RowAlignOk (⟨"2", 7, [true], ["6"], ["6"]⟩ : Row) := by
  have hrun : build_matrix demoRank 5 [[ReadEv.ok (⟨"2", 7, "0/0:6,0:6"⟩ : Call)]] =
      Except.ok [⟨"2", 7, [true], ["6"], ["6"]⟩] := by decide
  exact ⟨hrun, c9_row_alignment demoRank 5 _ _ hrun _ (List.mem_singleton.mpr rfl)⟩

end ADMatrix
